import Mathlib

/-!
Verification of the beam-search decoding engine of `text-correction-utils`.

The development shallowly embeds the Python sources:
  * `src/python/text_utils/inference/__init__.py` (`beam_search` and its
    inner closures `filter_beams` / `get_outputs`),
  * `src/python/text_utils/constraints.py` (`ContinuationConstraint`),
  * `src/python/text_utils/api/processor.py` (`TextProcessor._get_loader`).

Modelling conventions:
  * Python floats (scores, log-probabilities) are modelled as rationals `ℚ`;
    no claim below depends on floating-point rounding.
  * Python lists are `List`; `torch` tensors appear only as nested lists.
  * Python's in-place mutation of the engine state is modelled by explicit
    state passing (`SearchState`).
  * The generator `beam_search` is modelled as a fuel-indexed function
    returning the list of all yielded elements (`none` when the loop has not
    finished within the given fuel, i.e. the Python generator would still be
    running).
  * `torch.log_softmax` is an external numeric routine; it is threaded as an
    abstract row transformation `log_softmax_fn` supplied with the other
    collaborators.  The GPU `device` argument has no semantic content and is
    dropped.
-/

namespace TextUtils

attribute [local semireducible] Rat.add Rat.mul Rat.sub Rat.inv

/-- Modelled from the spec (the class `Beam` lives in
`text_utils/inference/utils.py`, which is not part of the given sources):
a beam is an append-only sequence of token ids with per-token
log-probabilities, parallel to the token ids. -/
structure Beam where
  token_ids : List Nat
  log_probs : List ℚ
deriving DecidableEq, Repr

/-- Modelled from the spec: the derived cumulative score
`log_prob = sum(log_probs)`. -/
def Beam.log_prob (b : Beam) : ℚ := b.log_probs.sum

/-- Modelled from the spec: `len(beam)` is the number of tokens (step count). -/
def Beam.length (b : Beam) : Nat := b.token_ids.length

/-- Modelled from the spec (`log_likelihood_score` lives in
`text_utils/inference/utils.py`, not part of the given sources):
`score = log_prob / (len(beam)^alpha)` when length normalization is enabled,
else the raw `log_prob`.  The float exponent `alpha` is specialised to a
natural exponent because scores are modelled as rationals. -/
def log_likelihood_score (normalize_by_length : Bool) (alpha : Nat) :
    Beam → ℚ :=
  fun b => if normalize_by_length then b.log_prob / (b.length : ℚ) ^ alpha
           else b.log_prob

/-- Modelled from the spec (`default_beam_candidate_fn` lives in
`text_utils/inference/utils.py`, not part of the given sources): the default
candidate function builds the child beam `parent + token` with the token's
log-probability appended. -/
def default_beam_candidate_fn : Beam → Nat → ℚ → Option Beam :=
  fun b token_id log_p =>
    some ⟨b.token_ids ++ [token_id], b.log_probs ++ [log_p]⟩

/-- One step of a stable descending insertion sort with key `f`: `a` is
placed before the first element whose key is not strictly greater than
`f a`, so earlier elements precede later elements of equal key. -/
def insertRevBy (f : α → ℚ) (a : α) : List α → List α
  | [] => [a]
  | b :: l => if f a < f b then b :: insertRevBy f a l else a :: b :: l

/-- Stable descending sort by key `f`.  Python's `sorted(key=f, reverse=True)`
is specified as the stable sort by descending key; since stable sorts agree
extensionally, this insertion sort models it. -/
def sortedRevBy (f : α → ℚ) : List α → List α
  | [] => []
  | a :: l => insertRevBy f a (sortedRevBy f l)

/-- Modelled from the spec (`greedy` lives in `text_utils/inference/utils.py`,
not part of the given sources): deterministic top-`k` sampling by descending
score. -/
def greedy : List ℚ → Nat → List Nat :=
  fun row k =>
    ((sortedRevBy (fun i => row.getD i 0) (List.range row.length)).take k)

/-- One entry of the `initial` argument of `beam_search`
(`list[list[int]] | list[Beam] | list[list[Beam]]`); Python's dynamic typing
is modelled by a sum.  `invalid` stands for any value hitting the
`raise ValueError` branch. -/
inductive InitSpec where
  | tokens (ids : List Nat)
  | beamSingle (b : Beam)
  | beamList (bs : List Beam)
  | invalid
deriving DecidableEq, Repr

/-- The branch cascade of `beam_search` lines 51-61 turning one `init` entry
into a list of beams: a bare `Beam` becomes a singleton, an empty list stays
empty, a token-id list becomes one beam with zero log-probs, a beam list is
taken as is, anything else raises `ValueError`. -/
def parseInit : InitSpec → Except String (List Beam)
  | .beamSingle b => .ok [b]
  | .tokens [] => .ok []
  | .beamList [] => .ok []
  | .tokens ids => .ok [⟨ids, List.replicate ids.length 0⟩]
  | .beamList bs => .ok bs
  | .invalid => .error "invalid initial beam type"

/-- The mutable engine state of `beam_search`: `current_beams`, `beam_queues`
and `update_info` (one entry per group), the decoder info threaded between
`decode_fn` calls, and the caller `kwargs` (mutated in place by
`kwargs_update_fn` in Python, modelled as a threaded value). -/
structure SearchState (ι κ : Type) where
  current_beams : List (List Beam)
  beam_queues : List (List Beam)
  update_info : List Nat
  decoder_info : Option ι
  kw : κ

/-- Lines 43-65 of `beam_search`: parsing of `initial` into the starting
state (`current_beams`, `update_info = [len(beams) ...]`, empty queues). -/
def initState (kw : κ) (initial : List InitSpec) :
    Except String (SearchState ι κ) := do
  let groups ← initial.mapM parseInit
  .ok ⟨groups, groups.map (fun _ => []), groups.map List.length, none, kw⟩

/-- The arguments of `beam_search` (minus `initial` and `device`; the latter
only selects the GPU and has no semantic content).  `ι` is the opaque decoder
info, `κ` the caller `kwargs`, `δ` the decoder kwargs produced by
`kwargs_select_fn`.  `decode_fn` receives the padded token-id batch, the
selected kwargs (`none` when `kwargs_select_fn` is absent, matching the empty
dict) and the true lengths (added automatically in line 156).
`log_softmax_fn` models the external `torch.log_softmax` row-wise. -/
structure BeamSearchParams (ι κ δ : Type) where
  decode_fn : List (List Nat) → Option δ → List Nat →
    List (List (List ℚ)) × ι
  pad_token_id : Nat
  max_length : Nat
  stop_fn : Beam → Bool
  normalize_by_length : Bool
  alpha : Nat
  beam_width : Nat
  sample_fn : List ℚ → Nat → List Nat
  candidate_fn : Beam → Nat → ℚ → Option Beam
  score_fn : Beam → ℚ
  logit_fns : List (List (List Nat) → List (List ℚ) → List Beam →
    List (List ℚ))
  kwargs_select_fn : Option (κ → List Nat → δ)
  kwargs_update_fn : Option (κ → ι → List Nat → κ)
  return_incomplete : Bool
  yield_intermediate : Bool
  log_softmax_fn : List ℚ → List ℚ

/-- Line 45 of `beam_search`:
`score_fn = log_likelihood_score(normalize_by_length, alpha)` — the local
variable is rebound, discarding the caller-supplied `score_fn` argument. -/
def beamSearchScoreFn (p : BeamSearchParams ι κ δ) : Beam → ℚ :=
  log_likelihood_score p.normalize_by_length p.alpha

/-- The closure `filter_beams` (lines 67-82): per group, beams satisfying
`stop_fn` or having reached `max_length` move from the active list to the
group's queue (in order); returns the updated state and the `finished` flag
(`and` over all groups of: active empty or queue at least `beam_width`). -/
def filterBeams (p : BeamSearchParams ι κ δ) (st : SearchState ι κ) :
    SearchState ι κ × Bool :=
  let pieces := (List.range st.current_beams.length).map (fun idx =>
    let beams := st.current_beams.getD idx []
    let queue := st.beam_queues.getD idx []
    let moved := beams.filter
      (fun b => p.stop_fn b || decide (p.max_length ≤ b.length))
    let kept := beams.filter
      (fun b => !(p.stop_fn b || decide (p.max_length ≤ b.length)))
    (kept, queue ++ moved))
  let fin := pieces.foldl
    (fun acc pc =>
      acc && (pc.1.length == 0 || decide (p.beam_width ≤ pc.2.length)))
    true
  ({ st with current_beams := pieces.map Prod.fst,
             beam_queues := pieces.map Prod.snd }, fin)

/-- The closure `get_outputs` (lines 84-108): per group, sort the finished
queue by the (rebound) score function descending; when it is empty and
incomplete results are allowed (or an intermediate output is requested),
fall back to the sorted active beams; truncate to `beam_width`.  For
intermediate outputs the roles of queue and active list are swapped. -/
def get_outputs (score_fn : Beam → ℚ) (beam_width : Nat)
    (return_incomplete : Bool) (current_beams beam_queues : List (List Beam))
    (intermediate : Bool) : List (List Beam) :=
  (List.range current_beams.length).map (fun idx =>
    let bq := beam_queues.getD idx []
    let cur := current_beams.getD idx []
    let pair := if intermediate then (cur, bq) else (bq, cur)
    let beam_queue := sortedRevBy score_fn pair.1
    let beam_queue :=
      if beam_queue.length == 0 && (return_incomplete || intermediate) then
        sortedRevBy score_fn pair.2
      else beam_queue
    beam_queue.take beam_width)

/-- Lines 181-206 for one group: build the `(beam, token_id, log_prob)`
candidate triples (`sample_fn` proposes up to `beam_width` tokens per beam
from the group's log-prob rows), rank them by `parent.log_prob + log_prob`
descending, keep the top `beam_width`, and materialize them through
`candidate_fn`, silently dropping rejected (`None`) candidates. -/
def selectCandidates (p : BeamSearchParams ι κ δ) (group : List Beam)
    (rows : List (List ℚ)) : List Beam :=
  let candidates : List (Beam × Nat × ℚ) :=
    group.enum.flatMap (fun pc =>
      (p.sample_fn (rows.getD pc.1 []) p.beam_width).map (fun token_id =>
        (pc.2, token_id, (rows.getD pc.1 []).getD token_id 0)))
  ((sortedRevBy (fun item => item.1.log_prob + item.2.2) candidates).take
      p.beam_width).filterMap
    (fun item => p.candidate_fn item.1 item.2.1 item.2.2)

/-- `torch.split(log_probs, num_beams)`: cut a flat list into consecutive
chunks of the given sizes. -/
def splitByLens : List Nat → List α → List (List α)
  | [], _ => []
  | n :: ns, xs => xs.take n :: splitByLens ns (xs.drop n)

/-- The body of the round loop (lines 110-206): flatten all active beams,
pad the token-id batch, update/select the caller kwargs, call `decode_fn`,
extract each beam's true-last-position score row (or position 0 when the
decoder returns a single timestep), apply the logit transforms and the
log-softmax, split the rows per group, and replace every group's active
list by its selected candidates, recording the new counts in
`update_info`. -/
def stepRound (p : BeamSearchParams ι κ δ) (st : SearchState ι κ) :
    SearchState ι κ :=
  let n := st.current_beams.length
  let num_beams := st.current_beams.map List.length
  let beams := st.current_beams.flatten
  let decoder_mask := ((List.range n).map (fun idx =>
    List.replicate (num_beams.getD idx 0) idx)).flatten
  let decoder_lengths := beams.map Beam.length
  let maxLen := decoder_lengths.foldl max 0
  let decoder_token_ids := beams.map (fun b =>
    b.token_ids ++ List.replicate (maxLen - b.length) p.pad_token_id)
  let kw' := match p.kwargs_update_fn, st.decoder_info with
    | some update_fn, some info =>
        let update_mask := ((List.range n).map (fun idx =>
          List.replicate (st.update_info.getD idx 0) idx)).flatten
        update_fn st.kw info update_mask
    | _, _ => st.kw
  let decoder_kwargs : Option δ :=
    p.kwargs_select_fn.map (fun sel => sel kw' decoder_mask)
  let out := p.decode_fn decoder_token_ids decoder_kwargs decoder_lengths
  let s := (out.1.headD []).length
  let outs : List (List ℚ) :=
    if s == 1 then out.1.map (fun row => row.getD 0 [])
    else out.1.enum.map (fun pc =>
      pc.2.getD (decoder_lengths.getD pc.1 0 - 1) [])
  let outs := p.logit_fns.foldl
    (fun acc fn => fn decoder_token_ids acc beams) outs
  let log_probs := outs.map p.log_softmax_fn
  let grouped := splitByLens num_beams log_probs
  let newCurrent := (List.range n).map (fun idx =>
    selectCandidates p (st.current_beams.getD idx []) (grouped.getD idx []))
  { st with current_beams := newCurrent,
            update_info := newCurrent.map List.length,
            decoder_info := some out.2,
            kw := kw' }

/-- The round loop `while not filter_beams(): ... yield` (lines 110-211),
with the generator modelled as the list of yielded elements.  `fuel` bounds
the number of loop iterations examined; `none` means the loop is still
running after `fuel` iterations.  Each iteration first runs `filter_beams`;
if it reports finished, the final `get_outputs(intermediate=False)` is the
last yielded element, otherwise the round body runs and, when
`yield_intermediate` is set, `get_outputs(intermediate=True)` is yielded. -/
def searchLoop (p : BeamSearchParams ι κ δ) :
    Nat → SearchState ι κ → List (List (List Beam)) →
      Option (List (List (List Beam)))
  | 0, _, _ => none
  | fuel + 1, st, acc =>
    match filterBeams p st with
    | (st', true) =>
        some (acc ++ [get_outputs (beamSearchScoreFn p) p.beam_width
          p.return_incomplete st'.current_beams st'.beam_queues false])
    | (st', false) =>
        let st'' := stepRound p st'
        searchLoop p fuel st''
          (if p.yield_intermediate then
            acc ++ [get_outputs (beamSearchScoreFn p) p.beam_width
              p.return_incomplete st''.current_beams st''.beam_queues true]
           else acc)

/-- `beam_search` itself: parse the initial beams (raising on an invalid
shape), then run the round loop with the given fuel. -/
def beamSearch (p : BeamSearchParams ι κ δ) (initial : List InitSpec)
    (kw : κ) (fuel : Nat) :
    Except String (Option (List (List (List Beam)))) :=
  (initState kw initial).map (fun st => searchLoop p fuel st [])

/-- The state after running `filter_beams` once (observation helper for the
loop's intermediate states). -/
def runFilter (p : BeamSearchParams ι κ δ) (st : SearchState ι κ) :
    SearchState ι κ :=
  (filterBeams p st).1

/-- One full loop iteration: `filter_beams`, then the round body unless the
loop just finished. -/
def loopIter (p : BeamSearchParams ι κ δ) (st : SearchState ι κ) :
    SearchState ι κ :=
  match filterBeams p st with
  | (st', true) => st'
  | (st', false) => stepRound p st'

/-- The engine state after `n` loop iterations. -/
def stateAfter (p : BeamSearchParams ι κ δ) :
    Nat → SearchState ι κ → SearchState ι κ
  | 0, st => st
  | n + 1, st => stateAfter p n (loopIter p st)

/-- The number of executed round bodies of a terminating run (`none` when
the loop does not finish within `fuel` iterations). -/
def countRounds (p : BeamSearchParams ι κ δ) :
    Nat → SearchState ι κ → Option Nat
  | 0, _ => none
  | fuel + 1, st =>
    match filterBeams p st with
    | (_, true) => some 0
    | (st', false) => (countRounds p fuel (stepRound p st')).map (· + 1)

/-- The opaque continuation-index provider
(`text_utils._internal.continuations.ContinuationIndex`, a native extension
outside the given sources): maps a byte string to the allowed continuation
indices together with the optional value of an exactly-completed entry, and
exposes the raw bytes of each continuation.  Bytes are modelled as lists of
naturals; the provider is read-only, matching its use in
`constraints.py`. -/
structure ContinuationIndex where
  get : List Nat → List Nat × Option String
  continuation_at : Nat → List Nat

/-- The state of `ContinuationConstraint`: the byte string consumed so far
(`self.prefix`, named `pfx` here because its Python name is a Lean keyword),
the cached `indices` and `value` from the last index query, and the shared
index. -/
structure ContinuationConstraint where
  cont_index : ContinuationIndex
  pfx : List Nat
  indices : List Nat
  value : Option String

/-- `ContinuationConstraint.__init__`: `self.prefix = prefix or bytes()`
(`none` and the empty byte string coincide), then one index query filling
`indices` and `value`. -/
def ContinuationConstraint.init (cont_index : ContinuationIndex)
    (p : Option (List Nat)) : ContinuationConstraint :=
  let pr := p.getD []
  let q := cont_index.get pr
  ⟨cont_index, pr, q.1, q.2⟩

/-- `is_match`: whether the current state holds a completed entry value. -/
def ContinuationConstraint.is_match (c : ContinuationConstraint) : Bool :=
  c.value.isSome

/-- `get`: the current constraint indices and the match flag. -/
def ContinuationConstraint.get (c : ContinuationConstraint) :
    List Nat × Bool :=
  (c.indices, c.is_match)

/-- `reset`: replace the state as if freshly constructed from `input`. -/
def ContinuationConstraint.reset (c : ContinuationConstraint)
    (input : Option (List Nat)) : ContinuationConstraint :=
  let pr := input.getD []
  let q := c.cont_index.get pr
  ⟨c.cont_index, pr, q.1, q.2⟩

/-- `next`: append the raw bytes of the chosen continuation to the consumed
string and requery the index.  Python mutates `self`; the mutation is
modelled by returning the updated object. -/
def ContinuationConstraint.next (c : ContinuationConstraint)
    (index : Nat) : ContinuationConstraint :=
  let pr := c.pfx ++ c.cont_index.continuation_at index
  let q := c.cont_index.get pr
  ⟨c.cont_index, pr, q.1, q.2⟩

/-- `clone`: a new `ContinuationConstraint` built from the same index and the
current consumed string. -/
def ContinuationConstraint.clone (c : ContinuationConstraint) :
    ContinuationConstraint :=
  ContinuationConstraint.init c.cont_index (some c.pfx)

/-- `get_value`: the optional matched value. -/
def ContinuationConstraint.get_value (c : ContinuationConstraint) :
    Option String :=
  c.value

/-- Python constraint objects live on a heap and are reached through
references; aliasing statements ("mutating the clone never changes the
original") are modelled over an explicit store of constraint objects
addressed by position.  `cloneInto` allocates the clone of the object at
address `a` at a fresh address and returns the new store and that address. -/
def cloneInto (s : List ContinuationConstraint) (a : Nat) :
    List ContinuationConstraint × Nat :=
  match s[a]? with
  | some c => (s ++ [c.clone], s.length)
  | none => (s, s.length)

/-- In-place `next` on the object at address `a` of the store. -/
def nextAt (s : List ContinuationConstraint) (a : Nat) (i : Nat) :
    List ContinuationConstraint :=
  match s[a]? with
  | some c => s.set a (c.next i)
  | none => s

/-- `get()` on the object at address `a` of the store. -/
def getAt (s : List ContinuationConstraint) (a : Nat) :
    Option (List Nat × Bool) :=
  s[a]?.map ContinuationConstraint.get

/-- `sys.maxsize` on the 64-bit CPython builds the repository targets. -/
def sys_maxsize : Nat := 9223372036854775807

/-- Line 216 of `api/processor.py` reads `if sorted:` — it tests the Python
builtin function `sorted` (the parameter is named `sort`), and a function
object is always truthy. -/
def sorted_builtin_truthy : Bool := true

/-- The computed entries of the `inference_cfg` dictionary built by
`TextProcessor._get_loader` (the `tokenizer` and `window` entries are copied
verbatim from `self.cfg` and are omitted). -/
structure InferenceLoaderCfg where
  num_threads : Nat
  batch_limit : Nat
  batch_limit_type : String
  buffer_size : Nat
  prefetch_factor : Nat
  sort : Bool
deriving DecidableEq, Repr

/-- `TextProcessor._get_loader` lines 203-230: `affinity` models
`len(os.sched_getaffinity(0))` and `max_length` is `self.max_length`;
`math.ceil` of the ratio of positive integers is rounded-up integer
division.  The trailing `inference_cfg.update(kwargs)` applies caller
overrides after this computation and is outside it. -/
def get_loader_cfg (batch_size : Nat) (batch_max_tokens : Option Nat)
    (sort : Bool) (num_threads : Option Nat) (max_length : Nat)
    (affinity : Nat) : InferenceLoaderCfg :=
  let nt := num_threads.getD (min affinity 4)
  match batch_max_tokens with
  | none =>
      { num_threads := nt
        batch_limit := max 1 batch_size
        batch_limit_type := "batch_size"
        buffer_size := max 1 batch_size
        prefetch_factor := if sorted_builtin_truthy then sys_maxsize else 1
        sort := sort }
  | some bmt =>
      { num_threads := nt
        batch_limit := max bmt max_length
        batch_limit_type := "padded_item_size"
        buffer_size := (max bmt max_length + max_length - 1) / max_length
        prefetch_factor := if sorted_builtin_truthy then sys_maxsize else 1
        sort := sort }

/-- Concrete decoder rows used by test runs: beams whose last token belongs
to the second group's alphabet score tokens 2 and 3 highest, all others
score tokens 1 and 0 highest. -/
def rowC1 (t : Nat) : List ℚ :=
  if t == 7 || t == 2 || t == 3 then [0, 0, 9, 3] else [3, 9, 0, 0]

/-- A concrete parameter set: greedy sampling, default candidates, stopping
on token 0, two beams per group. -/
def pC1 : BeamSearchParams Unit Unit Unit :=
  { decode_fn := fun ids _ lens =>
      (ids.enum.map (fun pc =>
        [rowC1 (pc.2.getD (lens.getD pc.1 0 - 1) 0)]), ())
    pad_token_id := 99
    max_length := 10
    stop_fn := fun b => b.token_ids.getLast? == some 0
    normalize_by_length := false
    alpha := 1
    beam_width := 2
    sample_fn := greedy
    candidate_fn := default_beam_candidate_fn
    score_fn := log_likelihood_score false 1
    logit_fns := []
    kwargs_select_fn := none
    kwargs_update_fn := none
    return_incomplete := false
    yield_intermediate := false
    log_softmax_fn := id }

/-- The parsed initial state of a two-group call with token lists `[5]` and
`[7]`. -/
def stC1 : SearchState Unit Unit :=
  ⟨[[⟨[5], [0]⟩], [⟨[7], [0]⟩]], [[], []], [1, 1], none, ()⟩

/-- A single-group run that lasts exactly one round: length cap 2, beam
width 1, intermediate outputs requested, a decoder favouring token 1. -/
def pC9 : BeamSearchParams Unit Unit Unit :=
  { pC1 with max_length := 2, beam_width := 1, yield_intermediate := true,
             stop_fn := fun _ => false,
             decode_fn := fun ids _ _ => (ids.map (fun _ => [[0, 5]]), ()) }

/-- The parsed initial state of a single-group call with token list `[5]`. -/
def stC9 : SearchState Unit Unit :=
  ⟨[[⟨[5], [0]⟩]], [[]], [1], none, ()⟩

/-- The elements yielded by the `pC9` run: one intermediate output and one
final output. -/
def outsC9 : List (List (List Beam)) :=
  [[[⟨[5, 1], [0, 5]⟩]], [[⟨[5, 1], [0, 5]⟩]]]

/-- The `pC1` scenario with `beam_width = 0`. -/
def pC5 : BeamSearchParams Unit Unit Unit :=
  { pC1 with beam_width := 0 }

/-- A run whose candidate function rejects every candidate, with incomplete
results requested. -/
def pC4 : BeamSearchParams Unit Unit Unit :=
  { pC1 with candidate_fn := fun _ _ _ => none, return_incomplete := true,
             max_length := 5, stop_fn := fun _ => false }

/-- The parsed initial state of the `pC4` call. -/
def stC4 : SearchState Unit Unit :=
  ⟨[[⟨[5], [0]⟩]], [[]], [1], none, ()⟩

/-- A beam with cumulative log-probability 9. -/
def beamA : Beam := ⟨[1], [9]⟩

/-- A beam with cumulative log-probability 3. -/
def beamB : Beam := ⟨[2], [3]⟩

/-- A run whose caller-supplied score function ranks low log-probability
first (the reverse of the log-likelihood ranking), with every beam stopping
immediately. -/
def pC2 : BeamSearchParams Unit Unit Unit :=
  { pC1 with stop_fn := fun _ => true, score_fn := fun b => -b.log_prob }

/-- The `pC1` scenario with length cap 3 (for a short terminating run). -/
def pW3 : BeamSearchParams Unit Unit Unit :=
  { pC1 with max_length := 3 }

/-- The parsed initial state of a single-group call with token list `[7]`. -/
def stW5 : SearchState Unit Unit :=
  ⟨[[⟨[7], [0]⟩]], [[]], [1], none, ()⟩

/-- A concrete two-entry continuation index: querying any byte string
returns its length as the single allowed index, and one-byte strings
match. -/
def contIdxW : ContinuationIndex :=
  { get := fun p => ([p.length], if p.length == 1 then some "m" else none)
    continuation_at := fun i => [i] }

/-- A one-object constraint store over `contIdxW`. -/
def storeW : List ContinuationConstraint :=
  [ContinuationConstraint.init contIdxW none]

theorem mem_insertRevBy (f : α → ℚ) (a : α) (l : List α) (x : α) :
    x ∈ insertRevBy f a l ↔ x = a ∨ x ∈ l := by
  induction l with
  | nil => simp [insertRevBy]
  | cons b l ih =>
      by_cases h : f a < f b
      · simp only [insertRevBy, if_pos h, List.mem_cons, ih]
        tauto
      · simp only [insertRevBy, if_neg h, List.mem_cons]

theorem mem_sortedRevBy (f : α → ℚ) (l : List α) (x : α) :
    x ∈ sortedRevBy f l ↔ x ∈ l := by
  induction l with
  | nil => simp [sortedRevBy]
  | cons a l ih =>
      simp only [sortedRevBy, mem_insertRevBy, List.mem_cons, ih]

theorem pairwise_insertRevBy (f : α → ℚ) (a : α) (l : List α)
    (h : l.Pairwise (fun x y => f y ≤ f x)) :
    (insertRevBy f a l).Pairwise (fun x y => f y ≤ f x) := by
  induction l with
  | nil => simp [insertRevBy]
  | cons b l ih =>
      rcases List.pairwise_cons.mp h with ⟨hb, hl⟩
      by_cases hab : f a < f b
      · simp only [insertRevBy, if_pos hab]
        refine List.pairwise_cons.mpr ⟨?_, ih hl⟩
        intro x hx
        rcases (mem_insertRevBy f a l x).mp hx with rfl | hxl
        · exact le_of_lt hab
        · exact hb x hxl
      · simp only [insertRevBy, if_neg hab]
        refine List.pairwise_cons.mpr ⟨?_, h⟩
        intro x hx
        rcases List.mem_cons.mp hx with rfl | hxl
        · exact le_of_not_lt hab
        · exact le_trans (hb x hxl) (le_of_not_lt hab)

theorem pairwise_sortedRevBy (f : α → ℚ) (l : List α) :
    (sortedRevBy f l).Pairwise (fun x y => f y ≤ f x) := by
  induction l with
  | nil => simp [sortedRevBy]
  | cons a l ih => exact pairwise_insertRevBy f a _ ih

theorem filter_insertRevBy_of_ne (f : α → ℚ) (a : α) (l : List α) (q : ℚ)
    (ha : f a ≠ q) :
    (insertRevBy f a l).filter (fun x => decide (f x = q)) =
      l.filter (fun x => decide (f x = q)) := by
  induction l with
  | nil => simp [insertRevBy, ha]
  | cons b l ih =>
      by_cases hab : f a < f b
      · simp only [insertRevBy, if_pos hab]
        by_cases hb : f b = q
        · simp [List.filter_cons, hb, ih]
        · simp [List.filter_cons, hb, ih]
      · simp only [insertRevBy, if_neg hab]
        simp [List.filter_cons, ha]

theorem filter_insertRevBy_of_eq (f : α → ℚ) (a : α) (l : List α) (q : ℚ)
    (ha : f a = q) (hl : l.Pairwise (fun x y => f y ≤ f x)) :
    (insertRevBy f a l).filter (fun x => decide (f x = q)) =
      a :: l.filter (fun x => decide (f x = q)) := by
  induction l with
  | nil => simp [insertRevBy, ha]
  | cons b l ih =>
      rcases List.pairwise_cons.mp hl with ⟨-, hl'⟩
      by_cases hab : f a < f b
      · have hbq : f b ≠ q := by
          intro hbq
          rw [ha, ← hbq] at hab
          exact lt_irrefl _ hab
        simp only [insertRevBy, if_pos hab]
        simp [List.filter_cons, hbq, ih hl']
      · simp only [insertRevBy, if_neg hab]
        simp [List.filter_cons, ha]

/-- Stability of the descending sort: for every key value `q`, the elements
whose key equals `q` appear in the sorted list in exactly their original
relative order. -/
theorem filter_sortedRevBy (f : α → ℚ) (l : List α) (q : ℚ) :
    (sortedRevBy f l).filter (fun x => decide (f x = q)) =
      l.filter (fun x => decide (f x = q)) := by
  induction l with
  | nil => simp [sortedRevBy]
  | cons a l ih =>
      by_cases ha : f a = q
      · rw [sortedRevBy,
          filter_insertRevBy_of_eq f a _ q ha (pairwise_sortedRevBy f l), ih]
        simp [List.filter_cons, ha]
      · rw [sortedRevBy, filter_insertRevBy_of_ne f a _ q ha, ih]
        simp [List.filter_cons, ha]

theorem getD_range_map (f : Nat → α) (n idx : Nat) (d : α) :
    ((List.range n).map f).getD idx d = if idx < n then f idx else d := by
  rw [List.getD_eq_getElem?_getD, List.getElem?_map]
  by_cases h : idx < n
  · rw [List.getElem?_range h]
    simp [h]
  · rw [List.getElem?_eq_none
      (by simpa [List.length_range] using Nat.le_of_not_lt h)]
    simp [h]

theorem getD_nil_of_le (l : List α) (idx : Nat) (d : α)
    (h : l.length ≤ idx) : l.getD idx d = d := by
  rw [List.getD_eq_getElem?_getD, List.getElem?_eq_none h]
  rfl

theorem foldl_and_eq_all (c : α → Bool) (l : List α) (b : Bool) :
    l.foldl (fun acc x => acc && c x) b = (b && l.all c) := by
  induction l generalizing b with
  | nil => simp
  | cons x l ih => simp [List.foldl_cons, ih, Bool.and_assoc, List.all_cons]

theorem filterBeams_current (p : BeamSearchParams ι κ δ)
    (st : SearchState ι κ) (idx : Nat) :
    (filterBeams p st).1.current_beams.getD idx [] =
      (st.current_beams.getD idx []).filter
        (fun b => !(p.stop_fn b || decide (p.max_length ≤ b.length))) := by
  simp only [filterBeams, List.map_map]
  rw [getD_range_map]
  by_cases h : idx < st.current_beams.length
  · simp [h]
  · rw [if_neg h, getD_nil_of_le _ _ _ (Nat.le_of_not_lt h)]
    simp

theorem filterBeams_queues (p : BeamSearchParams ι κ δ)
    (st : SearchState ι κ) (idx : Nat)
    (h : idx < st.current_beams.length) :
    (filterBeams p st).1.beam_queues.getD idx [] =
      st.beam_queues.getD idx [] ++
        (st.current_beams.getD idx []).filter
          (fun b => p.stop_fn b || decide (p.max_length ≤ b.length)) := by
  simp only [filterBeams, List.map_map]
  rw [getD_range_map, if_pos h]
  rfl

theorem filterBeams_current_length (p : BeamSearchParams ι κ δ)
    (st : SearchState ι κ) :
    (filterBeams p st).1.current_beams.length = st.current_beams.length := by
  simp [filterBeams]

theorem filterBeams_queues_length (p : BeamSearchParams ι κ δ)
    (st : SearchState ι κ) :
    (filterBeams p st).1.beam_queues.length = st.current_beams.length := by
  simp [filterBeams]

theorem filterBeams_fin_eq_true_iff (p : BeamSearchParams ι κ δ)
    (st : SearchState ι κ) :
    (filterBeams p st).2 = true ↔
      ∀ idx < st.current_beams.length,
        (st.current_beams.getD idx []).filter
          (fun b => !(p.stop_fn b || decide (p.max_length ≤ b.length))) = [] ∨
        p.beam_width ≤
          (st.beam_queues.getD idx [] ++
            (st.current_beams.getD idx []).filter
              (fun b => p.stop_fn b || decide (p.max_length ≤ b.length))).length := by
  simp only [filterBeams]
  rw [foldl_and_eq_all, Bool.true_and, List.all_eq_true]
  constructor
  · intro h idx hidx
    have := h _ (List.mem_map.mpr ⟨idx, List.mem_range.mpr hidx, rfl⟩)
    simpa [List.length_eq_zero] using this
  · intro h x hx
    rcases List.mem_map.mp hx with ⟨idx, hidx, rfl⟩
    have := h idx (List.mem_range.mp hidx)
    simpa [List.length_eq_zero] using this

theorem length_selectCandidates_le (p : BeamSearchParams ι κ δ)
    (group : List Beam) (rows : List (List ℚ)) :
    (selectCandidates p group rows).length ≤ p.beam_width :=
  le_trans (List.length_filterMap_le _ _)
    (by rw [List.length_take]; exact min_le_left _ _)

theorem exists_parent_of_mem_selectCandidates {p : BeamSearchParams ι κ δ}
    {group : List Beam} {rows : List (List ℚ)} {c : Beam}
    (h : c ∈ selectCandidates p group rows) :
    ∃ b ∈ group, ∃ t lp, p.candidate_fn b t lp = some c := by
  simp only [selectCandidates] at h
  rcases List.mem_filterMap.mp h with ⟨item, hitem, hc⟩
  have h2 := (mem_sortedRevBy _ _ _).mp (List.mem_of_mem_take hitem)
  rcases List.mem_flatMap.mp h2 with ⟨pc, hpc, hin⟩
  rcases List.mem_map.mp hin with ⟨t, _, rfl⟩
  exact ⟨pc.2, List.getElem?_mem (List.mem_enum_iff_getElem?.mp hpc),
    t, _, hc⟩

theorem stepRound_current_length (p : BeamSearchParams ι κ δ)
    (st : SearchState ι κ) :
    (stepRound p st).current_beams.length = st.current_beams.length := by
  simp only [stepRound]
  rw [List.length_map, List.length_range]

theorem stepRound_queues (p : BeamSearchParams ι κ δ)
    (st : SearchState ι κ) :
    (stepRound p st).beam_queues = st.beam_queues := rfl

theorem mem_stepRound_current {p : BeamSearchParams ι κ δ}
    {st : SearchState ι κ} {idx : Nat} {c : Beam}
    (h : c ∈ (stepRound p st).current_beams.getD idx []) :
    ∃ b ∈ st.current_beams.getD idx [], ∃ t lp,
      p.candidate_fn b t lp = some c := by
  simp only [stepRound] at h
  rw [getD_range_map] at h
  by_cases hidx : idx < st.current_beams.length
  · rw [if_pos hidx] at h
    exact exists_parent_of_mem_selectCandidates h
  · rw [if_neg hidx] at h
    cases h

theorem searchLoop_succ_of_fin {p : BeamSearchParams ι κ δ}
    {st : SearchState ι κ} {fuel : Nat} {acc : List (List (List Beam))}
    (h : (filterBeams p st).2 = true) :
    searchLoop p (fuel + 1) st acc =
      some (acc ++ [get_outputs (beamSearchScoreFn p) p.beam_width
        p.return_incomplete (filterBeams p st).1.current_beams
        (filterBeams p st).1.beam_queues false]) := by
  rcases hq : filterBeams p st with ⟨st', fin⟩
  rw [hq] at h
  simp only at h
  subst h
  simp only [searchLoop, hq]

theorem searchLoop_succ_of_not_fin {p : BeamSearchParams ι κ δ}
    {st : SearchState ι κ} {fuel : Nat} {acc : List (List (List Beam))}
    (h : (filterBeams p st).2 = false) :
    searchLoop p (fuel + 1) st acc =
      searchLoop p fuel (stepRound p (filterBeams p st).1)
        (if p.yield_intermediate then
          acc ++ [get_outputs (beamSearchScoreFn p) p.beam_width
            p.return_incomplete
            (stepRound p (filterBeams p st).1).current_beams
            (stepRound p (filterBeams p st).1).beam_queues true]
         else acc) := by
  rcases hq : filterBeams p st with ⟨st', fin⟩
  rw [hq] at h
  simp only at h
  subst h
  simp only [searchLoop, hq]

theorem countRounds_succ_of_fin {p : BeamSearchParams ι κ δ}
    {st : SearchState ι κ} {fuel : Nat}
    (h : (filterBeams p st).2 = true) :
    countRounds p (fuel + 1) st = some 0 := by
  rcases hq : filterBeams p st with ⟨st', fin⟩
  rw [hq] at h
  simp only at h
  subst h
  simp only [countRounds, hq]

theorem countRounds_succ_of_not_fin {p : BeamSearchParams ι κ δ}
    {st : SearchState ι κ} {fuel : Nat}
    (h : (filterBeams p st).2 = false) :
    countRounds p (fuel + 1) st =
      (countRounds p fuel (stepRound p (filterBeams p st).1)).map (· + 1) := by
  rcases hq : filterBeams p st with ⟨st', fin⟩
  rw [hq] at h
  simp only at h
  subst h
  simp only [countRounds, hq]

theorem filterBeams_fin_of_lengths (p : BeamSearchParams ι κ δ)
    (st : SearchState ι κ)
    (h : ∀ idx b, b ∈ st.current_beams.getD idx [] →
      p.max_length ≤ b.length) :
    (filterBeams p st).2 = true := by
  rw [filterBeams_fin_eq_true_iff]
  intro idx _
  left
  rw [List.filter_eq_nil_iff]
  intro b hb
  have := h idx b hb
  simp [this]

theorem filterBeams_fin_of_bw_zero (p : BeamSearchParams ι κ δ)
    (st : SearchState ι κ) (h : p.beam_width = 0) :
    (filterBeams p st).2 = true := by
  rw [filterBeams_fin_eq_true_iff]
  intro idx _
  right
  rw [h]
  exact Nat.zero_le _

theorem searchLoop_isSome_aux (p : BeamSearchParams ι κ δ)
    (Hcand : ∀ b t lp c, p.candidate_fn b t lp = some c →
      c.length = b.length + 1) :
    ∀ (k : Nat) (st : SearchState ι κ) (acc : List (List (List Beam))),
      (∀ idx b, b ∈ st.current_beams.getD idx [] →
        p.max_length ≤ b.length + k) →
      (searchLoop p (k + 1) st acc).isSome = true := by
  intro k
  induction k with
  | zero =>
      intro st acc h
      have hfin : (filterBeams p st).2 = true :=
        filterBeams_fin_of_lengths p st (fun idx b hb => by
          simpa using h idx b hb)
      rw [searchLoop_succ_of_fin hfin]
      rfl
  | succ k ih =>
      intro st acc h
      cases hfin : (filterBeams p st).2
      · rw [searchLoop_succ_of_not_fin hfin]
        apply ih
        intro idx c hc
        rcases mem_stepRound_current hc with ⟨b, hb, t, lp, hcand⟩
        rw [filterBeams_current] at hb
        have hbmem := (List.mem_filter.mp hb).1
        have hble := h idx b hbmem
        have hlen := Hcand b t lp c hcand
        omega
      · rw [searchLoop_succ_of_fin hfin]
        rfl

theorem searchLoop_length_eq (p : BeamSearchParams ι κ δ) :
    ∀ (fuel : Nat) (st : SearchState ι κ) (acc : List (List (List Beam)))
      (outs : List (List (List Beam))) (r : Nat),
      searchLoop p fuel st acc = some outs →
      countRounds p fuel st = some r →
      outs.length = acc.length + (if p.yield_intermediate then r else 0) + 1 := by
  intro fuel
  induction fuel with
  | zero =>
      intro st acc outs r h1 _
      simp [searchLoop] at h1
  | succ fuel ih =>
      intro st acc outs r h1 h2
      cases hfin : (filterBeams p st).2
      · rw [searchLoop_succ_of_not_fin hfin] at h1
        rw [countRounds_succ_of_not_fin hfin] at h2
        rcases Option.map_eq_some'.mp h2 with ⟨r', hr', rfl⟩
        have := ih _ _ _ _ h1 hr'
        cases hyi : p.yield_intermediate
        · rw [hyi] at this
          simpa [hyi] using this
        · rw [hyi] at this
          simp only [if_true] at this
          simp only [List.length_append, List.length_cons,
            List.length_nil] at this
          simp [hyi, this]
          omega
      · rw [searchLoop_succ_of_fin hfin] at h1
        rw [countRounds_succ_of_fin hfin] at h2
        have hr : r = 0 := by
          cases h2
          rfl
        subst hr
        have houts := Option.some.inj h1
        subst houts
        simp

theorem getD_replicate (a : α) (n idx : Nat) :
    (List.replicate n a).getD idx a = a := by
  rw [List.getD_eq_getElem?_getD, List.getElem?_replicate]
  split <;> rfl

theorem selectCandidates_eq_nil_of_none (p : BeamSearchParams ι κ δ)
    (group : List Beam) (rows : List (List ℚ))
    (h : ∀ b t lp, p.candidate_fn b t lp = none) :
    selectCandidates p group rows = [] := by
  simp only [selectCandidates]
  rw [List.filterMap_eq_nil_iff]
  intro a _
  exact h _ _ _

theorem get_outputs_length (f : Beam → ℚ) (bw : Nat) (ri : Bool)
    (cur qs : List (List Beam)) (inter : Bool) :
    (get_outputs f bw ri cur qs inter).length = cur.length := by
  simp [get_outputs]

theorem get_outputs_bw_zero (f : Beam → ℚ) (ri : Bool)
    (cur qs : List (List Beam)) (inter : Bool) :
    get_outputs f 0 ri cur qs inter = List.replicate cur.length [] := by
  rw [List.eq_replicate_iff]
  refine ⟨get_outputs_length f 0 ri cur qs inter, ?_⟩
  intro x hx
  simp only [get_outputs] at hx
  rcases List.mem_map.mp hx with ⟨idx, _, rfl⟩
  simp [List.take_zero]

theorem get_outputs_final_nil (f : Beam → ℚ) (bw : Nat) (ri : Bool)
    (cur qs : List (List Beam))
    (h : ∀ idx < cur.length,
      qs.getD idx [] = [] ∧ (cur.getD idx [] = [] ∨ bw = 0)) :
    get_outputs f bw ri cur qs false = List.replicate cur.length [] := by
  rw [List.eq_replicate_iff]
  refine ⟨get_outputs_length f bw ri cur qs false, ?_⟩
  intro x hx
  simp only [get_outputs] at hx
  rcases List.mem_map.mp hx with ⟨idx, hidx, rfl⟩
  rcases h idx (List.mem_range.mp hidx) with ⟨hq, hc⟩
  rcases hc with hc | hc
  · simp only [List.getD_eq_getElem?_getD] at hq hc
    simp [hq, hc, sortedRevBy]
  · simp [hc, List.take_zero]

theorem searchLoop_of_all_empty (p : BeamSearchParams ι κ δ)
    (st : SearchState ι κ) (f n : Nat)
    (h1 : st.current_beams = List.replicate n [])
    (h2 : st.beam_queues = List.replicate n []) :
    searchLoop p (f + 1) st [] = some [List.replicate n []] := by
  have hgetc : ∀ idx, st.current_beams.getD idx [] = [] := by
    intro idx
    rw [h1]
    exact getD_replicate [] n idx
  have hgetq : ∀ idx, st.beam_queues.getD idx [] = [] := by
    intro idx
    rw [h2]
    exact getD_replicate [] n idx
  have hlen : st.current_beams.length = n := by
    rw [h1, List.length_replicate]
  have hfin : (filterBeams p st).2 = true := by
    rw [filterBeams_fin_eq_true_iff]
    intro idx _
    left
    rw [hgetc idx]
    rfl
  rw [searchLoop_succ_of_fin hfin]
  have hout : get_outputs (beamSearchScoreFn p) p.beam_width
      p.return_incomplete (filterBeams p st).1.current_beams
      (filterBeams p st).1.beam_queues false =
      List.replicate (filterBeams p st).1.current_beams.length [] := by
    apply get_outputs_final_nil
    intro idx hidx
    rw [filterBeams_current_length, hlen] at hidx
    constructor
    · rw [filterBeams_queues p st idx (by rw [hlen]; exact hidx),
        hgetq idx, hgetc idx]
      rfl
    · left
      rw [filterBeams_current, hgetc idx]
      rfl
  rw [hout, filterBeams_current_length, hlen]
  rfl

/-- C1 (counterexample): in the two-group run `pC1` (beam width 2) from
initial token lists `[5]` and `[7]`, after three loop iterations the next
`filter_beams` call leaves group 0 with three finished beams, while the loop
is still running (the finished flag is false because group 1 is not done).
This refutes `len(finished) <= beam_width` holding at every round: a done
group's active beams keep being expanded and their stopped children keep
being appended to its queue as long as any other group runs. -/
theorem finished_queue_exceeds_beam_width :
    initState () [InitSpec.tokens [5], InitSpec.tokens [7]] =
      Except.ok stC1 ∧
    pC1.beam_width = 2 ∧
    ((runFilter pC1 (stateAfter pC1 3 stC1)).beam_queues.getD 0 []).length
      = 3 ∧
    (filterBeams pC1 (stateAfter pC1 3 stC1)).2 = false :=
  ⟨rfl, rfl, rfl, rfl⟩

/-- C1 (amended): after every selection step each group's active list has at
most `beam_width` beams, and every output list has at most `beam_width`
beams; the finished queues, however, are only truncated in `get_outputs`,
not bounded during the loop. -/
theorem active_width_bound_after_selection (p : BeamSearchParams ι κ δ)
    (st : SearchState ι κ) (idx : Nat) (f : Beam → ℚ) (bw : Nat)
    (ri inter : Bool) (cur qs : List (List Beam)) (out : List Beam)
    (hout : out ∈ get_outputs f bw ri cur qs inter) :
    ((stepRound p st).current_beams.getD idx []).length ≤ p.beam_width ∧
    out.length ≤ bw := by
  constructor
  · simp only [stepRound]
    rw [getD_range_map]
    split
    · exact length_selectCandidates_le p _ _
    · exact Nat.zero_le _
  · simp only [get_outputs] at hout
    rcases List.mem_map.mp hout with ⟨i, _, rfl⟩
    rw [List.length_take]
    exact min_le_left _ _

theorem active_width_bound_after_selection_witness :
    ((stepRound pC1 stC1).current_beams.getD 0 []).length ≤
      pC1.beam_width ∧
    [beamA].length ≤ 2 :=
  active_width_bound_after_selection pC1 stC1 0
    (log_likelihood_score false 1) 2 false false [[]] [[beamA]] [beamA]
    (by decide)

/-- C2: the caller-supplied Score policy does not reach the ranking — line
45 rebinds `score_fn` to `log_likelihood_score(normalize_by_length, alpha)`
before any use.  In this run the supplied score function ranks `beamB`
strictly above `beamA`, yet the output ranks `beamA` first (raw
log-probability order). -/
theorem score_fn_overwritten_at_entry :
    beamSearch pC2 [InitSpec.beamList [beamA, beamB]] () 3 =
      Except.ok (some [[[beamA, beamB]]]) ∧
    pC2.score_fn beamA < pC2.score_fn beamB :=
  ⟨rfl, by decide⟩

/-- C3: with a candidate function that extends its parent by exactly one
token (the documented Candidate contract, satisfied by the default
candidate function), the round loop finishes within `max_length` rounds:
fuel `max_length + 1` always suffices for the generator to complete,
because `filter_beams` force-moves every beam of length at least
`max_length` into its queue regardless of the Stop policy. -/
theorem beam_search_terminates_within_max_length
    (p : BeamSearchParams ι κ δ) (st : SearchState ι κ)
    (acc : List (List (List Beam)))
    (Hcand : ∀ b t lp c, p.candidate_fn b t lp = some c →
      c.length = b.length + 1) :
    (searchLoop p (p.max_length + 1) st acc).isSome = true :=
  searchLoop_isSome_aux p Hcand p.max_length st acc
    (fun _ b _ => Nat.le_add_left _ _)

theorem beam_search_terminates_within_max_length_witness :
    (searchLoop pW3 (pW3.max_length + 1) stC1 []).isSome = true :=
  beam_search_terminates_within_max_length pW3 stC1 []
    (fun b t lp c h => by
      simp only [pW3, pC1, default_beam_candidate_fn] at h
      injection h with h2
      subst h2
      simp [Beam.length])

/-- C4 (counterexample): a single-group run whose candidate function rejects
every candidate in round 1, with `return_incomplete = true`: the claim
promises the group's round-0 active beams as output, but the output element
is empty even though the round-0 active list is the nonempty `[Beam([5])]`. -/
theorem candidate_reject_all_incomplete_output_empty :
    initState () [InitSpec.tokens [5]] = Except.ok stC4 ∧
    stC4.current_beams = [[⟨[5], [0]⟩]] ∧
    pC4.return_incomplete = true ∧
    beamSearch pC4 [InitSpec.tokens [5]] () 5 = Except.ok (some [[[]]]) :=
  ⟨rfl, rfl, rfl, rfl⟩

/-- C4 (amended): if the Candidate policy rejects every candidate and no
initial beam stops or sits at the length cap, the final output has an empty
list for every group regardless of `return_incomplete`: `current_beams` is
cleared before candidate materialization, so when the groups are detected
done the `return_incomplete` fallback ranks an empty active list — the
round-0 beams are not returned. -/
theorem candidate_reject_all_first_round_empty_output
    (p : BeamSearchParams ι κ δ) (st : SearchState ι κ) (fuel : Nat)
    (Hnone : ∀ b t lp, p.candidate_fn b t lp = none)
    (Hstop : ∀ idx b, b ∈ st.current_beams.getD idx [] →
      p.stop_fn b = false ∧ b.length < p.max_length)
    (Hq : st.beam_queues = List.replicate st.current_beams.length [])
    (Hyi : p.yield_intermediate = false)
    (Hfuel : 2 ≤ fuel) :
    searchLoop p fuel st [] =
      some [List.replicate st.current_beams.length []] := by
  obtain ⟨f, rfl⟩ : ∃ f, fuel = f + 1 + 1 := ⟨fuel - 2, by omega⟩
  have hqidx : ∀ idx, st.beam_queues.getD idx [] = [] := by
    intro idx
    rw [Hq]
    exact getD_replicate [] _ idx
  have hkeep : ∀ idx, (st.current_beams.getD idx []).filter
      (fun b => !(p.stop_fn b || decide (p.max_length ≤ b.length))) =
      st.current_beams.getD idx [] := by
    intro idx
    rw [List.filter_eq_self]
    intro b hb
    rcases Hstop idx b hb with ⟨h1, h2⟩
    simp [h1, Nat.not_le.mpr h2]
  have hmove : ∀ idx, (st.current_beams.getD idx []).filter
      (fun b => p.stop_fn b || decide (p.max_length ≤ b.length)) = [] := by
    intro idx
    rw [List.filter_eq_nil_iff]
    intro b hb
    rcases Hstop idx b hb with ⟨h1, h2⟩
    simp [h1, Nat.not_le.mpr h2]
  cases hfin : (filterBeams p st).2
  · rw [searchLoop_succ_of_not_fin hfin, Hyi]
    simp only [Bool.false_eq_true, if_false]
    apply searchLoop_of_all_empty p _ f st.current_beams.length
    · rw [List.eq_replicate_iff]
      constructor
      · rw [stepRound_current_length, filterBeams_current_length]
      · intro x hx
        simp only [stepRound] at hx
        rcases List.mem_map.mp hx with ⟨idx, _, rfl⟩
        exact selectCandidates_eq_nil_of_none p _ _ Hnone
    · rw [stepRound_queues]
      rw [List.eq_replicate_iff]
      constructor
      · rw [filterBeams_queues_length]
      · intro x hx
        rcases List.mem_iff_getElem?.mp hx with ⟨i, hi⟩
        have hilt : i < (filterBeams p st).1.beam_queues.length := by
          by_contra hge
          rw [List.getElem?_eq_none (Nat.le_of_not_lt hge)] at hi
          cases hi
        rw [filterBeams_queues_length] at hilt
        have hx' : (filterBeams p st).1.beam_queues.getD i [] = x := by
          rw [List.getD_eq_getElem?_getD, hi]
          rfl
        rw [filterBeams_queues p st i hilt, hqidx i, hmove i] at hx'
        exact hx'.symm
  · rw [searchLoop_succ_of_fin hfin]
    have hcond := (filterBeams_fin_eq_true_iff p st).mp hfin
    have hout : get_outputs (beamSearchScoreFn p) p.beam_width
        p.return_incomplete (filterBeams p st).1.current_beams
        (filterBeams p st).1.beam_queues false =
        List.replicate (filterBeams p st).1.current_beams.length [] := by
      apply get_outputs_final_nil
      intro idx hidx
      rw [filterBeams_current_length] at hidx
      constructor
      · rw [filterBeams_queues p st idx hidx, hqidx idx, hmove idx]
        rfl
      · rcases hcond idx hidx with hc | hc
        · left
          rw [filterBeams_current, hc]
        · right
          rw [hqidx idx, hmove idx] at hc
          simpa using hc
    rw [hout, filterBeams_current_length]
    rfl

theorem candidate_reject_all_first_round_empty_output_witness :
    searchLoop pC4 5 stC4 [] =
      some [List.replicate stC4.current_beams.length []] :=
  candidate_reject_all_first_round_empty_output pC4 stC4 5
    (fun _ _ _ => rfl)
    (fun idx b hb => by
      cases idx with
      | zero =>
          rcases List.mem_singleton.mp hb with rfl
          exact ⟨rfl, by decide⟩
      | succ i => exact absurd hb (List.not_mem_nil b))
    rfl rfl (by decide)

/-- C5 (counterexample): calling `beam_search` with `beam_width = 0` is not
rejected at entry: the call returns a normal output (one element holding an
empty list per group) instead of raising. -/
theorem beam_width_zero_not_rejected :
    pC5.beam_width = 0 ∧
    beamSearch pC5 [InitSpec.tokens [5]] () 3 = Except.ok (some [[[]]]) :=
  ⟨rfl, rfl⟩

/-- C5 (amended): `beam_width = 0` is accepted: the very first
`filter_beams` reports every group finished (`len(queue) >= 0` holds
trivially), zero rounds run, and the single yielded element has an empty
list for every group. -/
theorem beam_width_zero_accepted (p : BeamSearchParams ι κ δ)
    (initial : List InitSpec) (kw : κ) (fuel : Nat) (st : SearchState ι κ)
    (hbw : p.beam_width = 0) (hfuel : 1 ≤ fuel)
    (hst : initState kw initial = Except.ok st) :
    beamSearch p initial kw fuel =
      Except.ok (some [List.replicate st.current_beams.length []]) := by
  obtain ⟨f, rfl⟩ : ∃ f, fuel = f + 1 := ⟨fuel - 1, by omega⟩
  have hfin := filterBeams_fin_of_bw_zero p st hbw
  unfold beamSearch
  rw [hst]
  simp only [Except.map]
  rw [searchLoop_succ_of_fin hfin, hbw, get_outputs_bw_zero,
    filterBeams_current_length]
  rfl

theorem beam_width_zero_accepted_witness :
    beamSearch pC5 [InitSpec.tokens [7]] () 2 =
      Except.ok (some [List.replicate stW5.current_beams.length []]) :=
  beam_width_zero_accepted pC5 [InitSpec.tokens [7]] () 2 stW5
    rfl (by decide) rfl

/-- C6: `get_outputs` ranks with a stable descending sort: every output
list is sorted by score descending, and (stability) for each score value
the beams carrying it keep exactly their relative order from the list they
were sorted from — their original insertion order. -/
theorem get_outputs_sorted_and_stable :
    (∀ (f : Beam → ℚ) (bw : Nat) (ri : Bool) (cur qs : List (List Beam))
      (inter : Bool) (out : List Beam),
        out ∈ get_outputs f bw ri cur qs inter →
        out.Pairwise (fun a b => f b ≤ f a)) ∧
    (∀ (f : Beam → ℚ) (l : List Beam) (q : ℚ),
      (sortedRevBy f l).filter (fun x => decide (f x = q)) =
        l.filter (fun x => decide (f x = q))) := by
  constructor
  · intro f bw ri cur qs inter out hout
    simp only [get_outputs] at hout
    rcases List.mem_map.mp hout with ⟨idx, _, rfl⟩
    apply List.Pairwise.sublist (List.take_sublist _ _)
    split <;> split <;> exact pairwise_sortedRevBy f _
  · exact fun f l q => filter_sortedRevBy f l q

theorem get_outputs_sorted_and_stable_witness :
    ([beamA, beamB] : List Beam).Pairwise
      (fun a b => log_likelihood_score false 1 b ≤
        log_likelihood_score false 1 a) ∧
    (sortedRevBy (log_likelihood_score false 1) [beamB, beamA]).filter
        (fun x => decide (log_likelihood_score false 1 x = 9)) =
      [beamB, beamA].filter
        (fun x => decide (log_likelihood_score false 1 x = 9)) :=
  ⟨get_outputs_sorted_and_stable.1 (log_likelihood_score false 1) 2 false
      [[]] [[beamB, beamA]] false [beamA, beamB] (by decide),
    get_outputs_sorted_and_stable.2 (log_likelihood_score false 1)
      [beamB, beamA] 9⟩

/-- C7: the engine is a pure function of the decode function, the policy
functions, the parameters, the initial beams and the auxiliary state: two
runs on identical inputs return identical output sequences. -/
theorem beam_search_deterministic (p₁ p₂ : BeamSearchParams ι κ δ)
    (init₁ init₂ : List InitSpec) (kw₁ kw₂ : κ) (fuel₁ fuel₂ : Nat)
    (hp : p₁ = p₂) (hi : init₁ = init₂) (hk : kw₁ = kw₂)
    (hf : fuel₁ = fuel₂) :
    beamSearch p₁ init₁ kw₁ fuel₁ = beamSearch p₂ init₂ kw₂ fuel₂ := by
  rw [hp, hi, hk, hf]

theorem beam_search_deterministic_witness :
    beamSearch pC1 [InitSpec.tokens [5]] () 2 =
      beamSearch pC1 [InitSpec.tokens [5]] () 2 :=
  beam_search_deterministic pC1 pC1 [InitSpec.tokens [5]]
    [InitSpec.tokens [5]] () () 2 2 rfl rfl rfl rfl

theorem getElem_nextAt_ne (s : List ContinuationConstraint)
    (b i a : Nat) (h : b ≠ a) : (nextAt s b i)[a]? = s[a]? := by
  simp only [nextAt]
  cases hs : s[b]?
  · rfl
  · exact List.getElem?_set_ne h

theorem foldl_nextAt_getElem (a addr : Nat) (h : addr ≠ a) :
    ∀ (ixs : List Nat) (s : List ContinuationConstraint),
      (ixs.foldl (fun st i => nextAt st addr i) s)[a]? = s[a]? := by
  intro ixs
  induction ixs with
  | nil => intro s; rfl
  | cons i ixs ih =>
      intro s
      rw [List.foldl_cons, ih, getElem_nextAt_ne s addr i a h]

/-- C8: allocating a clone of the constraint at address `a` and applying any
sequence of `next` calls to the clone leaves the original's `get()` result
unchanged — the clone is a fully independent copy (heap-level aliasing
model of `ContinuationConstraint.clone`). -/
theorem clone_independent_of_next (s : List ContinuationConstraint)
    (a : Nat) (ixs : List Nat) (h : a < s.length) :
    getAt (ixs.foldl (fun st i => nextAt st (cloneInto s a).2 i)
      (cloneInto s a).1) a = getAt s a := by
  have hc : s[a]? = some s[a] := List.getElem?_eq_getElem h
  simp only [cloneInto, hc, getAt]
  rw [foldl_nextAt_getElem a s.length (ne_of_gt h) ixs]
  rw [List.getElem?_append]
  rw [if_pos h, hc]

theorem clone_independent_of_next_witness :
    0 < storeW.length ∧
    getAt (([3, 4] : List Nat).foldl
      (fun st i => nextAt st (cloneInto storeW 0).2 i)
      (cloneInto storeW 0).1) 0 = getAt storeW 0 :=
  ⟨by decide, clone_independent_of_next storeW 0 [3, 4] (by decide)⟩

/-- C9 (counterexample): the `pC9` run executes exactly one round with
`yield_intermediate = true`, yet the generator yields two elements (the
round's intermediate output plus the final output), refuting "exactly one
element per round". -/
theorem yield_intermediate_extra_element :
    (searchLoop pC9 5 stC9 []).map List.length = some 2 ∧
    countRounds pC9 5 stC9 = some 1 ∧
    pC9.yield_intermediate = true :=
  ⟨rfl, rfl, rfl⟩

/-- C9 (amended): a terminating run yields exactly one element when
`yield_intermediate` is false, and one element per executed round plus the
final element — `rounds + 1` in total — when it is true. -/
theorem searchLoop_yield_count (p : BeamSearchParams ι κ δ)
    (fuel : Nat) (st : SearchState ι κ) (outs : List (List (List Beam)))
    (r : Nat) (h1 : searchLoop p fuel st [] = some outs)
    (h2 : countRounds p fuel st = some r) :
    outs.length = (if p.yield_intermediate then r else 0) + 1 := by
  have := searchLoop_length_eq p fuel st [] outs r h1 h2
  simpa using this

theorem searchLoop_yield_count_witness :
    outsC9.length = (if pC9.yield_intermediate then 1 else 0) + 1 :=
  searchLoop_yield_count pC9 5 stC9 outsC9 1 rfl rfl

/-- C10: the `prefetch_factor` entry computed by `_get_loader` equals
`sys.maxsize` for every argument combination — in particular for both
values of `sort` — because line 216 tests the always-truthy builtin
`sorted` instead of the `sort` parameter. -/
theorem prefetch_factor_ignores_sort (batch_size : Nat)
    (batch_max_tokens : Option Nat) (sort : Bool)
    (num_threads : Option Nat) (max_length affinity : Nat) :
    (get_loader_cfg batch_size batch_max_tokens sort num_threads
      max_length affinity).prefetch_factor = sys_maxsize := by
  unfold get_loader_cfg
  cases batch_max_tokens <;> rfl

end TextUtils
